import Mathlib

/-!
Stream decoder of the web chat client (`src/public/client.js`)

A shallow embedding of `ChatApp.handleStreamResponse` and of the three
rendering helpers it calls (`displayThinkContent`, `updateThinkContent`,
`updateContent`), followed by theorems about the delta classifier, the
line reassembly loop and the cancellation path.

Modelling conventions

* A JavaScript string is a list of characters.  Every string operation the
  decoder uses (`+`, `includes`, `split`, `startsWith`, `slice`, `===`) acts
  position by position, so nothing depends on the alphabet.
* `DOMPurify.sanitize(marked.parse(text))` is a library call; it is the
  parameter `render`.
* `JSON.parse(data)` followed by `parsed.choices[0]?.delta?.content` is the
  parameter `parse`: it throws, or it yields a value of any JSON type (or
  `undefined`).  What the classifier does with a value that is not a string
  is part of the model (`processOther`).
* The reply's `.message-content` element is a record: the markup written
  straight into it, its child regions, and its `collapsed` class.  Rendered
  markup is opaque: it is assumed to contain no element of class
  `think-block` or `text-content`, so `querySelector` only ever finds the
  regions the decoder created itself.
* `autoScroll` and the console calls do not touch any of this state and are
  left out.
-/

namespace ChatClient

/-- JavaScript string, as the list of its characters. -/
abbrev JsString := List Char

/-! ## String primitives -/

/-- `s.includes(m)`: does `m` occur in `s` as a contiguous substring. -/
def includes : JsString → JsString → Bool
  | [], m => m.isEmpty
  | c :: t, m => m.isPrefixOf (c :: t) || includes t m

/-- Put one more character in front of the first piece of a split. -/
def consHead (c : Char) : List JsString → List JsString
  | [] => [[c]]
  | p :: ps => (c :: p) :: ps

/-- Left-to-right scan of `split` for a non-empty separator: `skip` counts
the characters of an already matched separator that remain to be passed
over.  At a match the current piece is closed and the scan resumes right
after the separator, so matches never overlap. -/
def splitFrom (sep : JsString) : JsString → Nat → List JsString
  | [], _ => [[]]
  | _ :: t, skip + 1 => splitFrom sep t skip
  | c :: t, 0 =>
    if sep.isPrefixOf (c :: t) then [] :: splitFrom sep t (sep.length - 1)
    else consHead c (splitFrom sep t 0)

/-- `s.split(sep)`: all the pieces between the occurrences of `sep`; with the
empty separator, the single characters. -/
def split (s sep : JsString) : List JsString :=
  if sep.isEmpty then s.map (fun c => [c]) else splitFrom sep s 0

/-- `parts[i]` used as a string operand; the decoder only indexes arrays
returned by `split` on a string that contains the separator, which have at
least two entries. -/
def part (parts : List JsString) (i : Nat) : JsString := parts.getD i []

/-! ## The reply's content element -/

/-- The two classes of region the decoder creates inside `.message-content`. -/
inductive RegionClass
  | thinkBlock
  | textContent
  deriving DecidableEq, Repr

/-- A region: a `div` created by the decoder, with the markup last written
into it. -/
structure Region where
  /-- identity of the element (creation order) -/
  id : Nat
  /-- its class, `think-block` or `text-content` -/
  cls : RegionClass
  /-- its `innerHTML` -/
  html : JsString
  deriving DecidableEq, Repr

/-- The `.message-content` element of the reply. -/
structure ContentElement where
  /-- whether the class list holds `collapsed` -/
  collapsed : Bool
  /-- markup assigned to the element's own `innerHTML` -/
  html : JsString
  /-- child regions in document order -/
  children : List Region
  /-- identity for the next created element -/
  nextId : Nat
  deriving DecidableEq, Repr

/-- The element as `addBotMessage` creates it: empty and collapsed. -/
def ContentElement.fresh : ContentElement :=
  { collapsed := true, html := [], children := [], nextId := 0 }

/-- `contentElement.querySelector('.cls')`: the first region of the class. -/
def ContentElement.querySelector (el : ContentElement) (c : RegionClass) : Option Nat :=
  (el.children.find? (fun r => r.cls = c)).map (fun r => r.id)

/-- `document.createElement('div')`, `className = cls`, then
`contentElement.appendChild`: a new empty region at the end; returns the
element and its handle. -/
def ContentElement.appendNew (el : ContentElement) (c : RegionClass) : ContentElement × Nat :=
  ({ el with children := el.children ++ [{ id := el.nextId, cls := c, html := [] }],
             nextId := el.nextId + 1 }, el.nextId)

/-- Insert `r` right after the region with handle `h`; a list without `h` is
left as it is. -/
def insertAfter (h : Nat) (r : Region) : List Region → List Region
  | [] => []
  | x :: xs => if x.id = h then x :: r :: xs else x :: insertAfter h r xs

/-- `document.createElement('div')`, `className = cls`, then
`anchor.after(...)`: a new empty region right after the region `anchor`. -/
def ContentElement.insertNewAfter (el : ContentElement) (anchor : Nat) (c : RegionClass) :
    ContentElement × Nat :=
  ({ el with children := insertAfter anchor { id := el.nextId, cls := c, html := [] } el.children,
             nextId := el.nextId + 1 }, el.nextId)

/-- `region.innerHTML = markup` for the region with handle `h`. -/
def ContentElement.setRegionHtml (el : ContentElement) (h : Nat) (markup : JsString) :
    ContentElement :=
  { el with children := el.children.map (fun r => if r.id = h then { r with html := markup } else r) }

/-- `contentElement.innerHTML = markup`: the element's children are replaced
by the markup. -/
def ContentElement.setInnerHTML (el : ContentElement) (markup : JsString) : ContentElement :=
  { el with html := markup, children := [] }

/-- `contentElement.classList.remove('collapsed')`. -/
def ContentElement.expand (el : ContentElement) : ContentElement :=
  { el with collapsed := false }

/-- Markup currently shown by the first region of a class, if there is one. -/
def ContentElement.shown (el : ContentElement) (c : RegionClass) : Option JsString :=
  (el.children.find? (fun r => r.cls = c)).map (fun r => r.html)

/-! ## Configuration and per-reply state -/

/-- The fields of `ChatApp` the decoder reads. -/
structure ChatApp where
  thinkStartMarker : JsString
  thinkEndMarker : JsString
  deriving DecidableEq, Repr

/-- The markers as the constructor sets them: both empty. -/
def ChatApp.new : ChatApp := { thinkStartMarker := [], thinkEndMarker := [] }

/-- The local variables of `handleStreamResponse` that the line handler
reads and writes, together with the reply's content element. -/
structure RenderState where
  thinkContent : JsString
  inThinkBlock : Bool
  accumulatedContent : JsString
  thinkBlockCompleted : Bool
  thinkBlockElement : Option Nat
  dom : ContentElement
  deriving DecidableEq, Repr

/-- The variables as `handleStreamResponse` initialises them, on the element
made by `addBotMessage`. -/
def RenderState.init : RenderState :=
  { thinkContent := [], inThinkBlock := false, accumulatedContent := [],
    thinkBlockCompleted := false, thinkBlockElement := none, dom := ContentElement.fresh }

/-! ## Rendering helpers -/

/-- `displayThinkContent`: write the reasoning text into the think region the
caller holds, creating one when the caller holds none; expand. Returns the
new element and the region's handle. -/
def displayThinkContent (render : JsString → JsString) (el : ContentElement)
    (thinkContent : JsString) (thinkBlockElement : Option Nat) : ContentElement × Option Nat :=
  let (el1, h) := match thinkBlockElement with
    | some h => (el, h)
    | none => el.appendNew .thinkBlock
  (((el1.setRegionHtml h (render thinkContent)).expand), some h)

/-- `updateThinkContent`: as `displayThinkContent`, except that without a
handle an existing `.think-block` region is looked up before one is made. -/
def updateThinkContent (render : JsString → JsString) (el : ContentElement)
    (thinkContent : JsString) (thinkBlockElement : Option Nat) : ContentElement × Option Nat :=
  let (el1, h) := match thinkBlockElement with
    | some h => (el, h)
    | none => match el.querySelector .thinkBlock with
      | some h => (el, h)
      | none => el.appendNew .thinkBlock
  (((el1.setRegionHtml h (render thinkContent)).expand), some h)

/-- `updateContent`: render the answer text.  Without a start marker it goes
into the content element itself.  Otherwise, once the think block is
completed, into a `.text-content` region (made right after the think region
when needed); before that, into the think region. -/
def updateContent (app : ChatApp) (render : JsString → JsString) (el : ContentElement)
    (content : JsString) (thinkBlockCompleted : Bool) (thinkBlockElement : Option Nat) :
    ContentElement :=
  if app.thinkStartMarker.isEmpty then
    (el.setInnerHTML (render content)).expand
  else if thinkBlockCompleted then
    let (el1, h) := match el.querySelector .textContent with
      | some h => (el, h)
      | none => match thinkBlockElement with
        | some t => el.insertNewAfter t .textContent
        | none => el.appendNew .textContent
    el1.setRegionHtml h (render content)
  else
    let (el1, h) := match thinkBlockElement with
      | some h => (el, h)
      | none => match el.querySelector .thinkBlock with
        | some h => (el, h)
        | none => el.appendNew .thinkBlock
    el1.setRegionHtml h (render content)

/-! ## The delta classifier -/

/-- One delta through `if (content) { ... }`: an empty delta changes
nothing; otherwise the five branches in source order, each ending the
iteration. -/
def processContent (app : ChatApp) (render : JsString → JsString) (st : RenderState)
    (content : JsString) : RenderState :=
  if content.isEmpty then st
  else if app.thinkStartMarker.isEmpty then
    let acc := st.accumulatedContent ++ content
    { st with
      accumulatedContent := acc
      dom := updateContent app render st.dom acc st.thinkBlockCompleted st.thinkBlockElement }
  else if includes content app.thinkStartMarker && !st.inThinkBlock then
    let parts := split content app.thinkStartMarker
    { st with
      inThinkBlock := true
      accumulatedContent := st.accumulatedContent ++ part parts 0
      thinkContent := if parts.length > 1 then part parts 1 else st.thinkContent }
  else if !app.thinkEndMarker.isEmpty && st.inThinkBlock
      && includes content app.thinkEndMarker then
    let parts := split content app.thinkEndMarker
    let shown := displayThinkContent render st.dom (st.thinkContent ++ part parts 0)
      st.thinkBlockElement
    { st with
      inThinkBlock := false
      thinkBlockElement := shown.2
      dom := shown.1
      thinkBlockCompleted := true
      accumulatedContent :=
        if parts.length > 1 then st.accumulatedContent ++ part parts 1
        else st.accumulatedContent
      thinkContent := [] }
  else if st.inThinkBlock then
    let tc := st.thinkContent ++ content
    let shown := updateThinkContent render st.dom tc st.thinkBlockElement
    { st with thinkContent := tc, thinkBlockElement := shown.2, dom := shown.1 }
  else
    let acc := st.accumulatedContent ++ content
    { st with
      accumulatedContent := acc
      dom := updateContent app render st.dom acc st.thinkBlockCompleted st.thinkBlockElement }

/-- The classifier run over a sequence of deltas. -/
def feed (app : ChatApp) (render : JsString → JsString) (st : RenderState)
    (deltas : List JsString) : RenderState :=
  deltas.foldl (processContent app render) st

/-! ## Delta contents of any type -/

/-- What `parsed.choices[0]?.delta?.content` can evaluate to: `undefined` or
a JSON value.  A number is kept as what the decoder can observe of it:
whether it is zero, and its string conversion.  An object is kept as whether
it has an own property `toString`, which is all its string conversion depends
on. -/
inductive JsValue where
  | undefined
  | null
  | bool (b : Bool)
  | number (isZero : Bool) (text : JsString)
  | string (s : JsString)
  | array (items : List JsValue)
  | object (ownToString : Bool)

/-- Truthiness, as `||` and `if` test it. -/
def JsValue.truthy : JsValue → Bool
  | .undefined => false
  | .null => false
  | .bool b => b
  | .number isZero _ => !isZero
  | .string s => !s.isEmpty
  | .array _ => true
  | .object _ => true

mutual
/-- The string that `text += value` appends, or `none` when the conversion
throws a `TypeError`: an array is joined with commas; an object gives
`[object Object]`, unless an own property `toString` (never callable in parsed
JSON) hides the inherited method. -/
def JsValue.toStr : JsValue → Option JsString
  | .undefined => some "undefined".toList
  | .null => some "null".toList
  | .bool b => some (if b then "true".toList else "false".toList)
  | .number _ text => some text
  | .string s => some s
  | .array items => JsValue.join items
  | .object ownToString => if ownToString then none else some "[object Object]".toList
/-- `Array.prototype.join` with the separator `,`. -/
def JsValue.join : List JsValue → Option JsString
  | [] => some []
  | x :: rest =>
    match JsValue.joined x, rest, JsValue.join rest with
    | some a, [], _ => some a
    | some a, _ :: _, some b => some (a ++ ',' :: b)
    | _, _, _ => none
/-- The string an array element contributes to `join`: nothing for
`undefined` and `null`, its string conversion otherwise. -/
def JsValue.joined : JsValue → Option JsString
  | .undefined => some []
  | .null => some []
  | .bool b => some (if b then "true".toList else "false".toList)
  | .number _ text => some text
  | .string s => some s
  | .array items => JsValue.join items
  | .object ownToString => if ownToString then none else some "[object Object]".toList
end

/-- `content.includes(marker)` on an array: some element is the string
`marker`. -/
def arrayIncludes (items : List JsValue) (marker : JsString) : Bool :=
  items.any (fun x => match x with
    | .string s => s == marker
    | _ => false)

/-- The classifier of lines 160 to 212 on a truthy content that is not a
string.  The statements are those of `processContent`; on another type `+=`
appends the string conversion and throws when there is none, `includes`
exists on arrays only and throws on any other value, and `split` throws.  A
throw ends the iteration in the `catch` of line 214, with the assignments
made before it left in place. -/
def processOther (app : ChatApp) (render : JsString → JsString) (st : RenderState)
    (content : JsValue) : RenderState :=
  if app.thinkStartMarker.isEmpty then
    match content.toStr with
    | none => st
    | some text =>
      let acc := st.accumulatedContent ++ text
      { st with
        accumulatedContent := acc
        dom := updateContent app render st.dom acc st.thinkBlockCompleted st.thinkBlockElement }
  else
    match content with
    | .array items =>
      if arrayIncludes items app.thinkStartMarker && !st.inThinkBlock then
        { st with inThinkBlock := true }
      else if !app.thinkEndMarker.isEmpty && st.inThinkBlock
          && arrayIncludes items app.thinkEndMarker then
        { st with inThinkBlock := false }
      else if st.inThinkBlock then
        match (JsValue.array items).toStr with
        | none => st
        | some text =>
          let tc := st.thinkContent ++ text
          let shown := updateThinkContent render st.dom tc st.thinkBlockElement
          { st with thinkContent := tc, thinkBlockElement := shown.2, dom := shown.1 }
      else
        match (JsValue.array items).toStr with
        | none => st
        | some text =>
          let acc := st.accumulatedContent ++ text
          { st with
            accumulatedContent := acc
            dom := updateContent app render st.dom acc st.thinkBlockCompleted
              st.thinkBlockElement }
    | _ => st

/-- Lines 158 to 213 on the value of the access chain: `chain || ''` is the
content; a string goes through `processContent` (which passes over the empty
one), any other content, truthy by then, through `processOther`. -/
def processValue (app : ChatApp) (render : JsString → JsString) (st : RenderState)
    (chain : JsValue) : RenderState :=
  match (if chain.truthy then chain else JsValue.string []) with
  | .string s => processContent app render st s
  | other => processOther app render st other

/-! ## Lines, chunks and the read loop -/

/-- Either the handler goes on to the next step (`next`), or it has returned
without scheduling another read (`stop`). -/
inductive Flow (σ : Type) where
  | next (s : σ)
  | stop (s : σ)
  deriving DecidableEq, Repr

/-- The state carried by a `Flow`, whichever way it ended. -/
def Flow.state {σ : Type} : Flow σ → σ
  | .next s => s
  | .stop s => s

/-- Whether the handler has returned for good. -/
def Flow.stopped {σ : Type} : Flow σ → Bool
  | .next _ => false
  | .stop _ => true

/-- Apply a function to the carried state. -/
def Flow.map {σ τ : Type} (f : σ → τ) : Flow σ → Flow τ
  | .next s => .next (f s)
  | .stop s => .stop (f s)

/-- What `JSON.parse(data)` and the access chain of line 158 evaluate to:
`JSON.parse` or the access `parsed.choices[0]` throws, or the chain
`choices[0]?.delta?.content` yields a value. -/
inductive Parsed where
  | thrown
  | value (chain : JsValue)

/-- The prefix of a data line, `'data: '`. -/
def dataPrefix : JsString := "data: ".toList

/-- The end-of-stream payload, `'[DONE]'`. -/
def doneToken : JsString := "[DONE]".toList

/-- The line separator, `'\n'`. -/
def newline : JsString := ['\n']

/-- The body of `for (const line of lines)`: a line without the prefix is
passed over; `data: [DONE]` expands the content element and returns; a payload
on which parsing throws is passed over (the `catch` only logs); otherwise the
value of the access chain goes to `processValue`. -/
def processLine (app : ChatApp) (render : JsString → JsString) (parse : JsString → Parsed)
    (st : RenderState) (line : JsString) : Flow RenderState :=
  if dataPrefix.isPrefixOf line then
    let data := line.drop 6
    if data = doneToken then .stop { st with dom := st.dom.expand }
    else match parse data with
      | .thrown => .next st
      | .value chain => .next (processValue app render st chain)
  else .next st

/-- The `for` loop over the complete lines, left at the first `[DONE]`. -/
def processLines (app : ChatApp) (render : JsString → JsString) (parse : JsString → Parsed) :
    RenderState → List JsString → Flow RenderState
  | st, [] => .next st
  | st, l :: ls =>
    match processLine app render parse st l with
    | .next st1 => processLines app render parse st1 ls
    | .stop st1 => .stop st1

/-- All the local state of `handleStreamResponse`: the line buffer and the
render state. -/
structure StreamState where
  buffer : JsString
  rs : RenderState
  deriving DecidableEq, Repr

/-- State at the start of `handleStreamResponse`. -/
def StreamState.init : StreamState := { buffer := [], rs := RenderState.init }

/-- Name of the error a rejected read carries. -/
inductive ErrorName
  | abortError
  | other
  deriving DecidableEq, Repr

/-- What `reader.read()` settles to: a chunk (as the text `decoder.decode`
returns for it), the end of the stream, or a rejection. -/
inductive ReadResult where
  | chunk (text : JsString)
  | done
  | rejected (name : ErrorName)
  deriving DecidableEq, Repr

/-- `buffer.split('\n')` without its last piece: the lines that are complete. -/
def completeLines (buffer : JsString) : List JsString := (split buffer newline).dropLast

/-- `lines.pop()`: the piece after the last newline. -/
def remainder (buffer : JsString) : JsString := (split buffer newline).getLastD []

/-- `processText` on a fulfilled read.  `done`: expand and return.  A chunk:
append it to the buffer, split on newlines, keep the last piece as the new
buffer, handle the complete lines. -/
def processText (app : ChatApp) (render : JsString → JsString) (parse : JsString → Parsed)
    (st : StreamState) : Option JsString → Flow StreamState
  | none => .stop { st with rs := { st.rs with dom := st.rs.dom.expand } }
  | some value =>
    let buffer := st.buffer ++ value
    (processLines app render parse st.rs (completeLines buffer)).map
      (fun rs => { buffer := remainder buffer, rs := rs })

/-- Markup of the notice of the stream's `catch` handler. -/
def streamErrorNotice : JsString := "<div class=\"error\">Error receiving response.</div>".toList

/-- A rejected read.  The `catch` handler hangs on the promise of the first
read only (later reads are started inside `processText`, which does not return
their promise), and it acts on errors other than `AbortError`: the notice
replaces the content, which is expanded.  In every other case nothing is
written. -/
def onRejected (caught : Bool) (name : ErrorName) (st : StreamState) : StreamState :=
  if caught && name != .abortError then
    { st with rs := { st.rs with dom := (st.rs.dom.setInnerHTML streamErrorNotice).expand } }
  else st

/-- The chain of reads: each settled read is handled in turn until one makes
the handler return. `caught` tells whether the `catch` handler covers the
next read. -/
def pump (app : ChatApp) (render : JsString → JsString) (parse : JsString → Parsed) :
    Bool → StreamState → List ReadResult → Flow StreamState
  | _, st, [] => .next st
  | caught, st, .rejected name :: _ => .stop (onRejected caught name st)
  | _, st, .done :: _ => processText app render parse st none
  | _, st, .chunk v :: rest =>
    match processText app render parse st (some v) with
    | .next st1 => pump app render parse false st1 rest
    | .stop st1 => .stop st1

/-- `handleStreamResponse` on the reply placeholder, for a given sequence of
settled reads. -/
def handleStreamResponse (app : ChatApp) (render : JsString → JsString)
    (parse : JsString → Parsed) (reads : List ReadResult) : Flow StreamState :=
  pump app render parse true StreamState.init reads

/-! ## The submit handler around the stream -/

/-- How `await fetch(...)` settles: rejected, or a response with its `ok`
flag and the reads its body will deliver. -/
inductive FetchOutcome where
  | rejected (name : ErrorName)
  | response (ok : Bool) (reads : List ReadResult)
  deriving DecidableEq, Repr

/-- The reply element: still the placeholder of `addBotMessage` around its
content element, or markup assigned to its `innerHTML`. -/
inductive BotMessage where
  | placeholder (content : ContentElement)
  | markup (innerHTML : JsString)
  deriving DecidableEq, Repr

/-- The notice `handleSubmit` writes for an `AbortError`. -/
def stopNotice : JsString :=
  ("<div class=\"message-header\"><strong>Assistant:</strong></div>" ++
    "<div class=\"message-content\">请求已停止</div>").toList

/-- The notice `handleSubmit` writes for any other error. -/
def submitErrorNotice : JsString :=
  ("<div class=\"message-header\"><strong>Assistant:</strong></div>" ++
    "<div class=\"error\">Sorry, something went wrong.</div>").toList

/-- `handleSubmit` from the creation of the reply placeholder on: its `try`
covers the `fetch` and the `ok` test; `handleStreamResponse` is started, not
awaited, so nothing that happens while reading reaches this `catch`. -/
def handleSubmit (app : ChatApp) (render : JsString → JsString) (parse : JsString → Parsed) :
    FetchOutcome → BotMessage
  | .rejected .abortError => .markup stopNotice
  | .rejected .other => .markup submitErrorNotice
  | .response false _ => .markup submitErrorNotice
  | .response true reads => .placeholder (handleStreamResponse app render parse reads).state.rs.dom

/-- A data line whose delta content is the JSON text `json`. -/
def contentLine (json : String) : JsString :=
  ("data: \x7b\"choices\":[\x7b\"delta\":\x7b\"content\":" ++ json ++ "\x7d\x7d]\x7d").toList

/-- Stand-in for the `parse` parameter in the worked examples.  It reads the
payload `{"choices":[{"delta":{"content":"TEXT"}}]}` with `TEXT` free of
quotes and backslashes (content `TEXT`), the same payload with the content
`5` (a number) or `["</think>"]` (an array of one string), and
`{"choices":[{"delta":{}}]}` (no content), as `JSON.parse` does, and reports
any other payload as thrown, as `JSON.parse` does for the malformed payloads
used below. -/
def sampleParse (data : JsString) : Parsed :=
  let pre := "\x7b\"choices\":[\x7b\"delta\":\x7b\"content\":\"".toList
  let post := "\"\x7d\x7d]\x7d".toList
  if data = "\x7b\"choices\":[\x7b\"delta\":\x7b\x7d\x7d]\x7d".toList then .value .undefined
  else if data = (contentLine "5").drop 6 then .value (.number false "5".toList)
  else if data = (contentLine "[\"</think>\"]").drop 6 then
    .value (.array [.string "</think>".toList])
  else if pre.isPrefixOf data && post.isSuffixOf data && pre.length + post.length ≤ data.length then
    let text := (data.drop pre.length).take (data.length - pre.length - post.length)
    if text.all (fun c => c != '"' && c != '\\') then .value (.string text) else .thrown
  else .thrown

/-- A data line carrying `text` as delta content. -/
def dataLine (text : String) : JsString :=
  ("data: \x7b\"choices\":[\x7b\"delta\":\x7b\"content\":\"" ++ text ++ "\"\x7d\x7d]\x7d").toList

/-! ## Configurations and helpers used in the statements -/

/-- The markers `<think>` and `</think>`. -/
def thinkTags : ChatApp :=
  { thinkStartMarker := "<think>".toList, thinkEndMarker := "</think>".toList }

/-- The start marker `<think>` with no end marker. -/
def startOnly : ChatApp := { thinkStartMarker := "<think>".toList, thinkEndMarker := [] }

/-- What the end of the stream makes of the outcome of the chunks read so
far: an expanded content element, unless the handler had already returned. -/
def finish : Flow RenderState → Flow RenderState
  | .next rs => .stop { rs with dom := rs.dom.expand }
  | .stop rs => .stop rs

/-! ## Facts about the string primitives -/

theorem includes_append_left (m r : JsString) : includes (m ++ r) m = true := by
  cases m with
  | nil => cases r <;> simp [includes]
  | cons c t => simp [includes]

theorem includes_self (m : JsString) : includes m m = true := by
  simpa using includes_append_left m []

theorem includes_cons_false {c : Char} {t m : JsString} (h : includes (c :: t) m = false) :
    m.isPrefixOf (c :: t) = false ∧ includes t m = false := by
  simpa [includes] using h

theorem includes_of_includes_tail {c : Char} {t m : JsString} (h : includes t m = true) :
    includes (c :: t) m = true := by
  simp [includes, h]

theorem includes_append_right (p s m : JsString) (h : includes s m = true) :
    includes (p ++ s) m = true := by
  induction p with
  | nil => simpa using h
  | cons c t ih => exact includes_of_includes_tail ih

theorem splitFrom_ne_nil (sep s : JsString) (k : Nat) : splitFrom sep s k ≠ [] := by
  induction s generalizing k with
  | nil => simp [splitFrom]
  | cons c t ih =>
    cases k with
    | succ k => simpa [splitFrom] using ih k
    | zero =>
      simp only [splitFrom]
      split
      · simp
      · cases h : splitFrom sep t 0 with
        | nil => exact absurd h (ih 0)
        | cons p ps => simp [consHead]

/-- Passing over the rest of a matched separator. -/
theorem splitFrom_skip (sep x r : JsString) : splitFrom sep (x ++ r) x.length = splitFrom sep r 0 := by
  induction x with
  | nil => simp
  | cons c t ih => simpa [splitFrom] using ih

/-- A string without the separator is a single piece. -/
theorem splitFrom_not_includes (sep s : JsString) (h : includes s sep = false) :
    splitFrom sep s 0 = [s] := by
  induction s with
  | nil => simp [splitFrom]
  | cons c t ih =>
    obtain ⟨h1, h2⟩ := includes_cons_false h
    simp [splitFrom, h1, ih h2, consHead]

/-- A string that starts with the separator: an empty first piece, then the
pieces of what follows the separator. -/
theorem splitFrom_sep_append (sep r : JsString) (hne : sep ≠ []) :
    splitFrom sep (sep ++ r) 0 = [] :: splitFrom sep r 0 := by
  cases sep with
  | nil => exact absurd rfl hne
  | cons c t =>
    have hp : (c :: t).isPrefixOf (c :: (t ++ r)) = true := by simp
    have hs := splitFrom_skip (c :: t) t r
    show splitFrom (c :: t) (c :: (t ++ r)) 0 = [] :: splitFrom (c :: t) r 0
    rw [splitFrom, if_pos hp]
    simp only [List.length_cons, Nat.add_sub_cancel]
    rw [hs]

theorem split_not_includes (s sep : JsString) (hne : sep ≠ []) (h : includes s sep = false) :
    split s sep = [s] := by
  have : sep.isEmpty = false := by cases sep <;> simp_all
  simp [split, this, splitFrom_not_includes sep s h]

/-- The pieces of `sep ++ r` when `sep` does not occur in `r`. -/
theorem split_sep_append (sep r : JsString) (hne : sep ≠ []) (h : includes r sep = false) :
    split (sep ++ r) sep = [[], r] := by
  have : sep.isEmpty = false := by cases sep <;> simp_all
  simp [split, this, splitFrom_sep_append sep r hne, splitFrom_not_includes sep r h]

theorem isEmpty_eq_false_of_ne {m : JsString} (h : m ≠ []) : m.isEmpty = false := by
  cases m <;> simp_all

/-! ## Facts about the classifier -/

theorem feed_nil (app : ChatApp) (render : JsString → JsString) (st : RenderState) :
    feed app render st [] = st := rfl

theorem feed_cons (app : ChatApp) (render : JsString → JsString) (st : RenderState)
    (d : JsString) (ds : List JsString) :
    feed app render st (d :: ds) = feed app render (processContent app render st d) ds := rfl

theorem feed_append (app : ChatApp) (render : JsString → JsString) (st : RenderState)
    (ds es : List JsString) :
    feed app render st (ds ++ es) = feed app render (feed app render st ds) es := by
  simp [feed, List.foldl_append]

/-- Without a start marker a delta is appended to the answer text, which is
rendered into the content element; nothing else changes. -/
theorem processContent_noStart (app : ChatApp) (render : JsString → JsString)
    (st : RenderState) (d : JsString) (h : app.thinkStartMarker = []) :
    (processContent app render st d).accumulatedContent = st.accumulatedContent ++ d ∧
    (processContent app render st d).inThinkBlock = st.inThinkBlock ∧
    (processContent app render st d).thinkContent = st.thinkContent ∧
    (processContent app render st d).thinkBlockCompleted = st.thinkBlockCompleted ∧
    (processContent app render st d).thinkBlockElement = st.thinkBlockElement := by
  unfold processContent
  by_cases hd : d = []
  · simp [hd]
  · have : d.isEmpty = false := isEmpty_eq_false_of_ne hd
    simp [this, h]

theorem feed_noStart (app : ChatApp) (render : JsString → JsString)
    (h : app.thinkStartMarker = []) (deltas : List JsString) (st : RenderState) :
    (feed app render st deltas).accumulatedContent = st.accumulatedContent ++ deltas.flatten ∧
    (feed app render st deltas).inThinkBlock = st.inThinkBlock ∧
    (feed app render st deltas).thinkContent = st.thinkContent ∧
    (feed app render st deltas).thinkBlockCompleted = st.thinkBlockCompleted ∧
    (feed app render st deltas).thinkBlockElement = st.thinkBlockElement := by
  induction deltas generalizing st with
  | nil => simp [feed_nil]
  | cons d ds ih =>
    obtain ⟨a1, a2, a3, a4, a5⟩ := processContent_noStart app render st d h
    obtain ⟨b1, b2, b3, b4, b5⟩ := ih (processContent app render st d)
    rw [feed_cons]
    refine ⟨?_, ?_, ?_, ?_, ?_⟩
    · rw [b1, a1]; simp
    · rw [b2, a2]
    · rw [b3, a3]
    · rw [b4, a4]
    · rw [b5, a5]

/-- The start-marker branch, for a delta that contains the marker while the
classifier is outside a think block. -/
theorem processContent_start (app : ChatApp) (render : JsString → JsString)
    (st : RenderState) (d : JsString) (hS : app.thinkStartMarker ≠ [])
    (hin : st.inThinkBlock = false) (hd : includes d app.thinkStartMarker = true) :
    processContent app render st d =
      { st with
        inThinkBlock := true
        accumulatedContent := st.accumulatedContent ++ part (split d app.thinkStartMarker) 0
        thinkContent :=
          if (split d app.thinkStartMarker).length > 1 then part (split d app.thinkStartMarker) 1
          else st.thinkContent } := by
  have hne : d ≠ [] := by
    rintro rfl
    cases hm : app.thinkStartMarker with
    | nil => exact hS hm
    | cons c t => simp [hm, includes] at hd
  unfold processContent
  simp [isEmpty_eq_false_of_ne hne, isEmpty_eq_false_of_ne hS, hd, hin]

/-- The end-marker branch, for a delta that contains the marker while the
classifier is inside a think block. -/
theorem processContent_end (app : ChatApp) (render : JsString → JsString)
    (st : RenderState) (d : JsString) (hS : app.thinkStartMarker ≠ [])
    (hE : app.thinkEndMarker ≠ []) (hin : st.inThinkBlock = true)
    (hd : includes d app.thinkEndMarker = true) :
    processContent app render st d =
      { st with
        inThinkBlock := false
        thinkBlockElement :=
          (displayThinkContent render st.dom
            (st.thinkContent ++ part (split d app.thinkEndMarker) 0) st.thinkBlockElement).2
        dom :=
          (displayThinkContent render st.dom
            (st.thinkContent ++ part (split d app.thinkEndMarker) 0) st.thinkBlockElement).1
        thinkBlockCompleted := true
        accumulatedContent :=
          if (split d app.thinkEndMarker).length > 1 then
            st.accumulatedContent ++ part (split d app.thinkEndMarker) 1
          else st.accumulatedContent
        thinkContent := [] } := by
  have hne : d ≠ [] := by
    rintro rfl
    cases hm : app.thinkEndMarker with
    | nil => exact hE hm
    | cons c t => simp [hm, includes] at hd
  unfold processContent
  simp [isEmpty_eq_false_of_ne hne, isEmpty_eq_false_of_ne hS, isEmpty_eq_false_of_ne hE, hd, hin]

/-- Inside a think block, a non-empty delta without the end marker goes to the
reasoning text, which is rendered into the think region. -/
theorem processContent_think (app : ChatApp) (render : JsString → JsString)
    (st : RenderState) (d : JsString) (hS : app.thinkStartMarker ≠ []) (hne : d ≠ [])
    (hin : st.inThinkBlock = true)
    (hd : app.thinkEndMarker = [] ∨ includes d app.thinkEndMarker = false) :
    processContent app render st d =
      { st with
        thinkContent := st.thinkContent ++ d
        thinkBlockElement :=
          (updateThinkContent render st.dom (st.thinkContent ++ d) st.thinkBlockElement).2
        dom := (updateThinkContent render st.dom (st.thinkContent ++ d) st.thinkBlockElement).1 } := by
  unfold processContent
  rcases hd with hd | hd
  · simp [isEmpty_eq_false_of_ne hne, isEmpty_eq_false_of_ne hS, hd, hin]
  · simp [isEmpty_eq_false_of_ne hne, isEmpty_eq_false_of_ne hS, hd, hin]

/-- Outside a think block, a non-empty delta without the start marker goes to
the answer text, which is rendered by `updateContent`. -/
theorem processContent_plain (app : ChatApp) (render : JsString → JsString)
    (st : RenderState) (d : JsString) (hne : d ≠ [])
    (hin : st.inThinkBlock = false)
    (hd : app.thinkStartMarker = [] ∨ includes d app.thinkStartMarker = false) :
    processContent app render st d =
      { st with
        accumulatedContent := st.accumulatedContent ++ d
        dom := updateContent app render st.dom (st.accumulatedContent ++ d)
          st.thinkBlockCompleted st.thinkBlockElement } := by
  unfold processContent
  rcases hd with hd | hd
  · simp [isEmpty_eq_false_of_ne hne, hd]
  · by_cases hS : app.thinkStartMarker = []
    · simp [isEmpty_eq_false_of_ne hne, hS]
    · simp [isEmpty_eq_false_of_ne hne, isEmpty_eq_false_of_ne hS, hd, hin]

theorem processContent_empty (app : ChatApp) (render : JsString → JsString)
    (st : RenderState) : processContent app render st [] = st := by
  simp [processContent]

/-! ## Facts about the line handler -/

theorem processValue_string (app : ChatApp) (render : JsString → JsString)
    (st : RenderState) (s : JsString) :
    processValue app render st (.string s) = processContent app render st s := by
  cases s with
  | nil => simp [processValue, JsValue.truthy]
  | cons c t => simp [processValue, JsValue.truthy]

/-- A falsy value of the access chain becomes the content `''`, which the
classifier passes over. -/
theorem processValue_falsy (app : ChatApp) (render : JsString → JsString)
    (st : RenderState) (v : JsValue) (h : v.truthy = false) :
    processValue app render st v = st := by
  simp [processValue, h, processContent]

theorem processLine_value (app : ChatApp) (render : JsString → JsString)
    (parse : JsString → Parsed) (st : RenderState) (line : JsString) (v : JsValue)
    (hp : dataPrefix.isPrefixOf line = true) (hd : line.drop 6 ≠ doneToken)
    (hc : parse (line.drop 6) = .value v) :
    processLine app render parse st line = .next (processValue app render st v) := by
  simp [processLine, hp, hd, hc]

theorem processLine_content (app : ChatApp) (render : JsString → JsString)
    (parse : JsString → Parsed) (st : RenderState) (line : JsString) (c : JsString)
    (hp : dataPrefix.isPrefixOf line = true) (hd : line.drop 6 ≠ doneToken)
    (hc : parse (line.drop 6) = .value (.string c)) :
    processLine app render parse st line = .next (processContent app render st c) := by
  rw [processLine_value app render parse st line _ hp hd hc, processValue_string]

theorem processLine_thrown (app : ChatApp) (render : JsString → JsString)
    (parse : JsString → Parsed) (st : RenderState) (line : JsString)
    (hp : dataPrefix.isPrefixOf line = true) (hd : line.drop 6 ≠ doneToken)
    (hc : parse (line.drop 6) = .thrown) :
    processLine app render parse st line = .next st := by
  simp [processLine, hp, hd, hc]

theorem processLine_noPrefix (app : ChatApp) (render : JsString → JsString)
    (parse : JsString → Parsed) (st : RenderState) (line : JsString)
    (hp : dataPrefix.isPrefixOf line = false) :
    processLine app render parse st line = .next st := by
  simp [processLine, hp]

theorem processLines_nil (app : ChatApp) (render : JsString → JsString)
    (parse : JsString → Parsed) (st : RenderState) :
    processLines app render parse st [] = .next st := rfl

theorem processLines_cons_next (app : ChatApp) (render : JsString → JsString)
    (parse : JsString → Parsed) (st st1 : RenderState) (l : JsString) (ls : List JsString)
    (h : processLine app render parse st l = .next st1) :
    processLines app render parse st (l :: ls) = processLines app render parse st1 ls := by
  simp [processLines, h]

theorem processLines_cons_stop (app : ChatApp) (render : JsString → JsString)
    (parse : JsString → Parsed) (st st1 : RenderState) (l : JsString) (ls : List JsString)
    (h : processLine app render parse st l = .stop st1) :
    processLines app render parse st (l :: ls) = .stop st1 := by
  simp [processLines, h]

/-- The loop over `pre ++ post` is the loop over `pre`, then, unless `pre`
made the handler return, the loop over `post`. -/
theorem processLines_append (app : ChatApp) (render : JsString → JsString)
    (parse : JsString → Parsed) (pre post : List JsString) (st : RenderState) :
    processLines app render parse st (pre ++ post) =
      match processLines app render parse st pre with
      | .next st1 => processLines app render parse st1 post
      | .stop st1 => .stop st1 := by
  induction pre generalizing st with
  | nil => rfl
  | cons l ls ih =>
    cases h : processLine app render parse st l with
    | next st1 =>
      rw [List.cons_append, processLines_cons_next _ _ _ _ _ _ _ h,
        processLines_cons_next _ _ _ _ _ _ _ h, ih]
    | stop st1 =>
      rw [List.cons_append, processLines_cons_stop _ _ _ _ _ _ _ h,
        processLines_cons_stop _ _ _ _ _ _ _ h]

/-! ## The classifier on marker-delimited input -/

/-- C1: with non-empty markers S and E, feeding the deltas S, r, E ++ a to
the classifier from its initial state, where the end marker occurs neither in
r nor in a, leaves the think region showing the render of r, the answer text
equal to a, the think block completed and closed, and the reasoning buffer
emptied by the flush. -/
theorem C1_three_deltas (app : ChatApp) (render : JsString → JsString) (r a : JsString)
    (hS : app.thinkStartMarker ≠ []) (hE : app.thinkEndMarker ≠ [])
    (hr : includes r app.thinkEndMarker = false) (ha : includes a app.thinkEndMarker = false) :
    (feed app render RenderState.init
        [app.thinkStartMarker, r, app.thinkEndMarker ++ a]).dom.shown .thinkBlock
      = some (render r) ∧
    (feed app render RenderState.init
        [app.thinkStartMarker, r, app.thinkEndMarker ++ a]).accumulatedContent = a ∧
    (feed app render RenderState.init
        [app.thinkStartMarker, r, app.thinkEndMarker ++ a]).thinkBlockCompleted = true ∧
    (feed app render RenderState.init
        [app.thinkStartMarker, r, app.thinkEndMarker ++ a]).inThinkBlock = false ∧
    (feed app render RenderState.init
        [app.thinkStartMarker, r, app.thinkEndMarker ++ a]).thinkContent = [] := by
  have h1 : processContent app render RenderState.init app.thinkStartMarker =
      { RenderState.init with inThinkBlock := true } := by
    rw [processContent_start app render _ _ hS rfl (includes_self _)]
    have hsp : split app.thinkStartMarker app.thinkStartMarker = [[], []] := by
      simpa using split_sep_append app.thinkStartMarker [] hS (by simp [includes, hS])
    simp [hsp, part, RenderState.init]
  have hsp : split (app.thinkEndMarker ++ a) app.thinkEndMarker = [[], a] :=
    split_sep_append _ _ hE ha
  rw [feed_cons, h1, feed_cons]
  by_cases hrn : r = []
  · subst hrn
    rw [processContent_empty, feed_cons,
      processContent_end app render _ _ hS hE rfl (includes_append_left _ _), feed_nil, hsp]
    simp [part, RenderState.init, displayThinkContent, ContentElement.appendNew,
      ContentElement.fresh, ContentElement.setRegionHtml, ContentElement.expand,
      ContentElement.shown]
  · rw [processContent_think app render _ _ hS hrn rfl (Or.inr hr), feed_cons,
      processContent_end app render _ _ hS hE rfl (includes_append_left _ _), feed_nil, hsp]
    simp [part, RenderState.init, displayThinkContent, updateThinkContent,
      ContentElement.appendNew, ContentElement.querySelector,
      ContentElement.fresh, ContentElement.setRegionHtml, ContentElement.expand,
      ContentElement.shown]

/-- C1 at the markers `<think>` and `</think>` with the deltas `<think>`,
`abc`, `</think>def`: reasoning `abc`, answer `def`. -/
theorem C1_three_deltas_witness :
    (feed thinkTags id RenderState.init
        ["<think>".toList, "abc".toList, "</think>def".toList]).dom.shown .thinkBlock
      = some "abc".toList ∧
    (feed thinkTags id RenderState.init
        ["<think>".toList, "abc".toList, "</think>def".toList]).accumulatedContent
      = "def".toList ∧
    (feed thinkTags id RenderState.init
        ["<think>".toList, "abc".toList, "</think>def".toList]).thinkBlockCompleted = true ∧
    (feed thinkTags id RenderState.init
        ["<think>".toList, "abc".toList, "</think>def".toList]).inThinkBlock = false ∧
    (feed thinkTags id RenderState.init
        ["<think>".toList, "abc".toList, "</think>def".toList]).thinkContent = [] :=
  C1_three_deltas thinkTags id "abc".toList "def".toList (by decide) (by decide)
    (by decide) (by decide)

/-- C2 as stated fails: the single delta `<think>x</think>y` from the initial
state leaves the classifier inside the think block with `x</think>y` as
reasoning text, an empty answer and nothing rendered. -/
theorem C2_single_delta_counterexample :
    (feed thinkTags id RenderState.init ["<think>x</think>y".toList]).accumulatedContent
      ≠ "y".toList ∧
    feed thinkTags id RenderState.init ["<think>x</think>y".toList] =
      { RenderState.init with inThinkBlock := true, thinkContent := "x</think>y".toList } := by
  decide

/-- C2 amended: with a non-empty start marker S, a single delta S ++ t from
the initial state, S not occurring in t (so for t = r ++ E ++ a as well),
takes the start-marker transition only: the classifier ends inside the think
block with t, end marker included, as reasoning text; the answer text stays
empty, the think block is not completed and nothing is rendered. -/
theorem C2_single_delta_amended (app : ChatApp) (render : JsString → JsString) (t : JsString)
    (hS : app.thinkStartMarker ≠ []) (ht : includes t app.thinkStartMarker = false) :
    feed app render RenderState.init [app.thinkStartMarker ++ t] =
      { RenderState.init with inThinkBlock := true, thinkContent := t } := by
  rw [feed_cons, feed_nil,
    processContent_start app render _ _ hS rfl (includes_append_left _ _),
    split_sep_append _ _ hS ht]
  simp [part, RenderState.init]

/-- C2 amended, at `<think>` followed by `x</think>y`. -/
theorem C2_single_delta_amended_witness :
    feed thinkTags id RenderState.init ["<think>".toList ++ "x</think>y".toList] =
      { RenderState.init with inThinkBlock := true, thinkContent := "x</think>y".toList } :=
  C2_single_delta_amended thinkTags id "x</think>y".toList (by decide) (by decide)

/-- C3: with an empty start marker, whatever the end marker and the deltas,
the classifier run from its initial state is outside a think block, has an
empty reasoning buffer and no completed think block, and its answer text is
the concatenation of the deltas. -/
theorem C3_no_start_marker (app : ChatApp) (render : JsString → JsString)
    (hS : app.thinkStartMarker = []) (deltas : List JsString) :
    (feed app render RenderState.init deltas).inThinkBlock = false ∧
    (feed app render RenderState.init deltas).thinkContent = [] ∧
    (feed app render RenderState.init deltas).thinkBlockCompleted = false ∧
    (feed app render RenderState.init deltas).accumulatedContent = deltas.flatten := by
  obtain ⟨a1, a2, a3, a4, _⟩ := feed_noStart app render hS deltas RenderState.init
  refine ⟨a2, a3, a4, ?_⟩
  rw [a1]; simp [RenderState.init]

/-- C3 at the single delta `<think>abc</think>def`, with `</think>` as end
marker: the whole text is answer text. -/
theorem C3_no_start_marker_witness :
    (feed ⟨[], "</think>".toList⟩ id RenderState.init
        ["<think>abc</think>def".toList]).inThinkBlock = false ∧
    (feed ⟨[], "</think>".toList⟩ id RenderState.init
        ["<think>abc</think>def".toList]).thinkContent = [] ∧
    (feed ⟨[], "</think>".toList⟩ id RenderState.init
        ["<think>abc</think>def".toList]).thinkBlockCompleted = false ∧
    (feed ⟨[], "</think>".toList⟩ id RenderState.init
        ["<think>abc</think>def".toList]).accumulatedContent
      = ["<think>abc</think>def".toList].flatten :=
  C3_no_start_marker ⟨[], "</think>".toList⟩ id rfl ["<think>abc</think>def".toList]

/-! ## Runs of deltas that take no marker transition -/

/-- Outside a think block, deltas without the start marker are appended to
the answer text one after the other; the other classifier variables stay. -/
theorem feed_plain (app : ChatApp) (render : JsString → JsString) (deltas : List JsString)
    (st : RenderState) (hin : st.inThinkBlock = false)
    (hd : ∀ d ∈ deltas, includes d app.thinkStartMarker = false) :
    (feed app render st deltas).inThinkBlock = false ∧
    (feed app render st deltas).thinkContent = st.thinkContent ∧
    (feed app render st deltas).thinkBlockCompleted = st.thinkBlockCompleted ∧
    (feed app render st deltas).accumulatedContent = st.accumulatedContent ++ deltas.flatten := by
  induction deltas generalizing st with
  | nil => simp [feed_nil, hin]
  | cons d ds ih =>
    rw [feed_cons]
    have hds : ∀ e ∈ ds, includes e app.thinkStartMarker = false :=
      fun e he => hd e (List.mem_cons_of_mem _ he)
    by_cases hne : d = []
    · subst hne
      rw [processContent_empty]
      simpa using ih st hin hds
    · have hstep := processContent_plain app render st d hne hin
        (Or.inr (hd d (List.mem_cons_self _ _)))
      obtain ⟨b1, b2, b3, b4⟩ := ih (processContent app render st d) (by rw [hstep]; exact hin) hds
      refine ⟨b1, ?_, ?_, ?_⟩
      · rw [b2, hstep]
      · rw [b3, hstep]
      · rw [b4, hstep]; simp

/-- Inside a think block and without an end marker, every delta is appended
to the reasoning text; the think block stays open. -/
theorem feed_think_noEnd (app : ChatApp) (render : JsString → JsString)
    (hS : app.thinkStartMarker ≠ []) (hE : app.thinkEndMarker = [])
    (deltas : List JsString) (st : RenderState) (hin : st.inThinkBlock = true) :
    (feed app render st deltas).inThinkBlock = true ∧
    (feed app render st deltas).thinkContent = st.thinkContent ++ deltas.flatten ∧
    (feed app render st deltas).thinkBlockCompleted = st.thinkBlockCompleted ∧
    (feed app render st deltas).accumulatedContent = st.accumulatedContent := by
  induction deltas generalizing st with
  | nil => simp [feed_nil, hin]
  | cons d ds ih =>
    rw [feed_cons]
    by_cases hne : d = []
    · subst hne
      rw [processContent_empty]
      simpa using ih st hin
    · have hstep := processContent_think app render st d hS hne hin (Or.inl hE)
      obtain ⟨b1, b2, b3, b4⟩ := ih (processContent app render st d) (by rw [hstep]; exact hin)
      refine ⟨b1, ?_, ?_, ?_⟩
      · rw [b2, hstep]; simp
      · rw [b3, hstep]
      · rw [b4, hstep]

/-! ## After the think block has been closed -/

/-- C7 as stated fails: after `<think>`, `a`, `</think>` the think block is
completed and closed, and the next delta `<think>b` puts the classifier back
inside a think block with `b` as reasoning text and nothing added to the
answer text. -/
theorem C7_reopen_counterexample :
    (feed thinkTags id RenderState.init
      ["<think>".toList, "a".toList, "</think>".toList]).thinkBlockCompleted = true ∧
    (feed thinkTags id RenderState.init
      ["<think>".toList, "a".toList, "</think>".toList]).inThinkBlock = false ∧
    (feed thinkTags id RenderState.init
      ["<think>".toList, "a".toList, "</think>".toList, "<think>b".toList]).inThinkBlock = true ∧
    (feed thinkTags id RenderState.init
      ["<think>".toList, "a".toList, "</think>".toList, "<think>b".toList]).thinkContent
      = "b".toList ∧
    (feed thinkTags id RenderState.init
      ["<think>".toList, "a".toList, "</think>".toList, "<think>b".toList]).accumulatedContent
      = [] := by
  decide

/-- C7 amended: once the think block has been completed and closed, for every
later sequence of deltas none of which contains the start marker, the
classifier stays outside a think block, the reasoning buffer is not written,
and every delta is appended whole to the answer text; a later delta that
contains the (non-empty) start marker opens a think block again. -/
theorem C7_after_close_amended (app : ChatApp) (render : JsString → JsString)
    (st : RenderState) (hc : st.thinkBlockCompleted = true) (hin : st.inThinkBlock = false) :
    (∀ deltas : List JsString, (∀ d ∈ deltas, includes d app.thinkStartMarker = false) →
      (feed app render st deltas).inThinkBlock = false ∧
      (feed app render st deltas).thinkContent = st.thinkContent ∧
      (feed app render st deltas).thinkBlockCompleted = true ∧
      (feed app render st deltas).accumulatedContent = st.accumulatedContent ++ deltas.flatten) ∧
    (∀ d : JsString, app.thinkStartMarker ≠ [] → includes d app.thinkStartMarker = true →
      (processContent app render st d).inThinkBlock = true ∧
      (processContent app render st d).thinkBlockCompleted = true) := by
  constructor
  · intro deltas hd
    obtain ⟨b1, b2, b3, b4⟩ := feed_plain app render deltas st hin hd
    exact ⟨b1, b2, b3.trans hc, b4⟩
  · intro d hS hd
    rw [processContent_start app render st d hS hin hd]
    exact ⟨rfl, hc⟩

/-- C7 amended, at the state reached after `<think>`, `a`, `</think>`. -/
theorem C7_after_close_amended_witness :
    (∀ deltas : List JsString, (∀ d ∈ deltas, includes d thinkTags.thinkStartMarker = false) →
      (feed thinkTags id (feed thinkTags id RenderState.init
        ["<think>".toList, "a".toList, "</think>".toList]) deltas).inThinkBlock = false ∧
      (feed thinkTags id (feed thinkTags id RenderState.init
        ["<think>".toList, "a".toList, "</think>".toList]) deltas).thinkContent =
        (feed thinkTags id RenderState.init
          ["<think>".toList, "a".toList, "</think>".toList]).thinkContent ∧
      (feed thinkTags id (feed thinkTags id RenderState.init
        ["<think>".toList, "a".toList, "</think>".toList]) deltas).thinkBlockCompleted = true ∧
      (feed thinkTags id (feed thinkTags id RenderState.init
        ["<think>".toList, "a".toList, "</think>".toList]) deltas).accumulatedContent =
        (feed thinkTags id RenderState.init
          ["<think>".toList, "a".toList, "</think>".toList]).accumulatedContent
          ++ deltas.flatten) ∧
    (∀ d : JsString, thinkTags.thinkStartMarker ≠ [] →
      includes d thinkTags.thinkStartMarker = true →
      (processContent thinkTags id (feed thinkTags id RenderState.init
        ["<think>".toList, "a".toList, "</think>".toList]) d).inThinkBlock = true ∧
      (processContent thinkTags id (feed thinkTags id RenderState.init
        ["<think>".toList, "a".toList, "</think>".toList]) d).thinkBlockCompleted = true) :=
  C7_after_close_amended thinkTags id
    (feed thinkTags id RenderState.init ["<think>".toList, "a".toList, "</think>".toList])
    (by decide) (by decide)

/-! ## A delta with the end marker twice -/

/-- C8, the code at the failing input: inside the think block opened by
`<think>`, the delta `a</think>b</think>c` puts `a` in the think region and
only `b` in the answer text; the second `</think>` and the `c` after it are
in neither buffer. -/
theorem C8_second_end_marker_drops_text (render : JsString → JsString) :
    split "a</think>b</think>c".toList thinkTags.thinkEndMarker =
      ["a".toList, "b".toList, "c".toList] ∧
    (feed thinkTags render RenderState.init
      ["<think>".toList, "a</think>b</think>c".toList]).accumulatedContent = "b".toList ∧
    (feed thinkTags render RenderState.init
      ["<think>".toList, "a</think>b</think>c".toList]).thinkContent = [] ∧
    (feed thinkTags render RenderState.init
      ["<think>".toList, "a</think>b</think>c".toList]).dom.shown .thinkBlock
      = some (render "a".toList) ∧
    (feed thinkTags render RenderState.init
      ["<think>".toList, "a</think>b</think>c".toList]).accumulatedContent
      ≠ "b</think>c".toList := by
  refine ⟨by decide, ?_, ?_, ?_, ?_⟩ <;> simp [thinkTags, feed, processContent, includes, split,
    splitFrom, consHead, part, RenderState.init, displayThinkContent, ContentElement.appendNew,
    ContentElement.fresh, ContentElement.setRegionHtml, ContentElement.expand,
    ContentElement.shown]

/-! ## A start marker without an end marker -/

/-- C9 as stated fails: with start marker `<think>` and an empty end marker,
the deltas `<think>a`, `b` leave the classifier inside a think block with `ab`
as reasoning text and an empty answer text. -/
theorem C9_empty_end_marker_counterexample :
    (feed startOnly id RenderState.init ["<think>a".toList, "b".toList]).inThinkBlock = true ∧
    (feed startOnly id RenderState.init ["<think>a".toList, "b".toList]).thinkContent
      = "ab".toList ∧
    (feed startOnly id RenderState.init ["<think>a".toList, "b".toList]).accumulatedContent
      = [] := by
  decide

/-- C9 amended: only the start marker switches classification off.  With a
non-empty start marker and an empty end marker, deltas without the start
marker are appended whole to the answer text while the classifier is outside
a think block; a delta that contains the start marker opens the think block;
and an open think block never closes: every later delta is appended to the
reasoning text and the answer text no longer changes. -/
theorem C9_empty_end_marker_amended (app : ChatApp) (render : JsString → JsString)
    (hS : app.thinkStartMarker ≠ []) (hE : app.thinkEndMarker = []) :
    (∀ deltas : List JsString, (∀ d ∈ deltas, includes d app.thinkStartMarker = false) →
      (feed app render RenderState.init deltas).inThinkBlock = false ∧
      (feed app render RenderState.init deltas).thinkContent = [] ∧
      (feed app render RenderState.init deltas).accumulatedContent = deltas.flatten) ∧
    (∀ (st : RenderState) (d : JsString), st.inThinkBlock = false →
      includes d app.thinkStartMarker = true →
      (processContent app render st d).inThinkBlock = true) ∧
    (∀ (st : RenderState) (deltas : List JsString), st.inThinkBlock = true →
      (feed app render st deltas).inThinkBlock = true ∧
      (feed app render st deltas).thinkContent = st.thinkContent ++ deltas.flatten ∧
      (feed app render st deltas).accumulatedContent = st.accumulatedContent) := by
  refine ⟨?_, ?_, ?_⟩
  · intro deltas hd
    obtain ⟨b1, b2, _, b4⟩ := feed_plain app render deltas RenderState.init rfl hd
    refine ⟨b1, b2, ?_⟩
    rw [b4]; simp [RenderState.init]
  · intro st d hin hd
    rw [processContent_start app render st d hS hin hd]
  · intro st deltas hin
    obtain ⟨b1, b2, _, b4⟩ := feed_think_noEnd app render hS hE deltas st hin
    exact ⟨b1, b2, b4⟩

/-- C9 amended, at the start marker `<think>` with an empty end marker. -/
theorem C9_empty_end_marker_amended_witness :
    (∀ deltas : List JsString, (∀ d ∈ deltas, includes d startOnly.thinkStartMarker = false) →
      (feed startOnly id RenderState.init deltas).inThinkBlock = false ∧
      (feed startOnly id RenderState.init deltas).thinkContent = [] ∧
      (feed startOnly id RenderState.init deltas).accumulatedContent = deltas.flatten) ∧
    (∀ (st : RenderState) (d : JsString), st.inThinkBlock = false →
      includes d startOnly.thinkStartMarker = true →
      (processContent startOnly id st d).inThinkBlock = true) ∧
    (∀ (st : RenderState) (deltas : List JsString), st.inThinkBlock = true →
      (feed startOnly id st deltas).inThinkBlock = true ∧
      (feed startOnly id st deltas).thinkContent = st.thinkContent ++ deltas.flatten ∧
      (feed startOnly id st deltas).accumulatedContent = st.accumulatedContent) :=
  C9_empty_end_marker_amended startOnly id (by decide) rfl

/-! ## Rendering after a marker transition -/

/-- C10, the code at the failing input.  After the deltas `<think>`, `abc`,
`</think>def` and the end of the stream, the answer text is `def`, yet the
content element holds the think region alone: no `.text-content` region was
made and `def` is rendered nowhere.  After the single delta `hi<think>t` the
answer text is `hi` and the reasoning text `t`, and the content element is
still the empty placeholder. -/
theorem C10_marker_delta_not_rendered (render : JsString → JsString) :
    (feed thinkTags render RenderState.init
      ["<think>".toList, "abc".toList, "</think>def".toList]).accumulatedContent
      = "def".toList ∧
    (feed thinkTags render RenderState.init
      ["<think>".toList, "abc".toList, "</think>def".toList]).dom.shown .textContent = none ∧
    (feed thinkTags render RenderState.init
      ["<think>".toList, "abc".toList, "</think>def".toList]).dom.children
      = [{ id := 0, cls := .thinkBlock, html := render "abc".toList }] ∧
    (pump thinkTags render sampleParse true StreamState.init
      [.chunk (dataLine "<think>" ++ newline ++ dataLine "abc" ++ newline
        ++ dataLine "</think>def" ++ newline), .done]).state.rs.dom
      = { collapsed := false, html := [],
          children := [{ id := 0, cls := .thinkBlock, html := render "abc".toList }],
          nextId := 1 } ∧
    feed thinkTags render RenderState.init ["hi<think>t".toList] =
      { RenderState.init with
        inThinkBlock := true, accumulatedContent := "hi".toList, thinkContent := "t".toList } ∧
    (feed thinkTags render RenderState.init ["hi<think>t".toList]).dom = ContentElement.fresh := by
  have hfeed : feed thinkTags render RenderState.init
      ["<think>".toList, "abc".toList, "</think>def".toList] =
      { thinkContent := [], inThinkBlock := false, accumulatedContent := "def".toList,
        thinkBlockCompleted := true, thinkBlockElement := some 0,
        dom := { collapsed := false, html := [],
                 children := [{ id := 0, cls := .thinkBlock, html := render "abc".toList }],
                 nextId := 1 } } := by
    simp [thinkTags, feed, processContent, includes, split, splitFrom, consHead, part,
      RenderState.init, displayThinkContent, updateThinkContent, ContentElement.appendNew,
      ContentElement.querySelector, ContentElement.fresh, ContentElement.setRegionHtml,
      ContentElement.expand]
  have hopen : feed thinkTags render RenderState.init ["hi<think>t".toList] =
      { RenderState.init with
        inThinkBlock := true, accumulatedContent := "hi".toList, thinkContent := "t".toList } := by
    simp [thinkTags, feed, processContent, includes, split, splitFrom, consHead, part,
      RenderState.init]
  have hlines : completeLines (StreamState.init.buffer ++ (dataLine "<think>" ++ newline
      ++ dataLine "abc" ++ newline ++ dataLine "</think>def" ++ newline)) =
      [dataLine "<think>", dataLine "abc", dataLine "</think>def"] := by decide
  have hrun : processLines thinkTags render sampleParse RenderState.init
      [dataLine "<think>", dataLine "abc", dataLine "</think>def"] =
      .next (feed thinkTags render RenderState.init
        ["<think>".toList, "abc".toList, "</think>def".toList]) := by
    rw [processLines_cons_next _ _ _ _ _ _ _
        (processLine_content thinkTags render sampleParse _ (dataLine "<think>")
          "<think>".toList (by decide) (by decide) rfl),
      processLines_cons_next _ _ _ _ _ _ _
        (processLine_content thinkTags render sampleParse _ (dataLine "abc")
          "abc".toList (by decide) (by decide) rfl),
      processLines_cons_next _ _ _ _ _ _ _
        (processLine_content thinkTags render sampleParse _ (dataLine "</think>def")
          "</think>def".toList (by decide) (by decide) rfl)]
    rfl
  refine ⟨?_, ?_, ?_, ?_, hopen, ?_⟩
  · rw [hfeed]
  · rw [hfeed]; simp [ContentElement.shown]
  · rw [hfeed]
  · simp only [pump, processText, hlines]
    rw [show StreamState.init.rs = RenderState.init from rfl, hrun, hfeed]
    simp [Flow.map, Flow.state, ContentElement.expand]
  · rw [hopen]; rfl

/-! ## Line reassembly across chunk boundaries -/

theorem splitFrom_single_cons (n c : Char) (t : JsString) :
    splitFrom [n] (c :: t) 0 =
      if n = c then [] :: splitFrom [n] t 0 else consHead c (splitFrom [n] t 0) := by
  by_cases h : n = c <;> simp [splitFrom, List.isPrefixOf, h]

theorem consHead_append (c : Char) (xs ys : List JsString) (h : xs ≠ []) :
    consHead c (xs ++ ys) = consHead c xs ++ ys := by
  cases xs with
  | nil => exact absurd rfl h
  | cons p ps => rfl

theorem consHead_ne_nil (c : Char) (xs : List JsString) : consHead c xs ≠ [] := by
  cases xs <;> simp [consHead]

theorem dropLast_consHead (c : Char) (p q : JsString) (ps : List JsString) :
    (consHead c (p :: q :: ps)).dropLast = consHead c ((p :: q :: ps).dropLast) := by
  simp [consHead, List.dropLast]

theorem getLastD_consHead (c : Char) (p q : JsString) (ps : List JsString) :
    (consHead c (p :: q :: ps)).getLastD [] = (p :: q :: ps).getLastD [] := by
  simp [consHead, List.getLastD]

/-- Splitting `a ++ b` on a one-character separator: the complete pieces of
`a`, then the pieces of the last piece of `a` joined with `b`. -/
theorem splitFrom_single_append (n : Char) (a b : JsString) :
    splitFrom [n] (a ++ b) 0 =
      (splitFrom [n] a 0).dropLast ++ splitFrom [n] ((splitFrom [n] a 0).getLastD [] ++ b) 0 := by
  induction a with
  | nil => simp [splitFrom]
  | cons c t ih =>
    rw [List.cons_append, splitFrom_single_cons, splitFrom_single_cons]
    by_cases h : n = c
    · simp only [if_pos h]
      cases hx : splitFrom [n] t 0 with
      | nil => exact absurd hx (splitFrom_ne_nil _ _ _)
      | cons p ps =>
        rw [ih, hx]
        simp [List.dropLast, List.getLastD]
    · simp only [if_neg h]
      cases hx : splitFrom [n] t 0 with
      | nil => exact absurd hx (splitFrom_ne_nil _ _ _)
      | cons p ps =>
        cases ps with
        | nil =>
          rw [ih, hx]
          show consHead c ([] ++ splitFrom [n] (p ++ b) 0) = [] ++ splitFrom [n] (c :: (p ++ b)) 0
          rw [List.nil_append, List.nil_append, splitFrom_single_cons, if_neg h]
        | cons q qs =>
          rw [ih, hx, dropLast_consHead, getLastD_consHead, consHead_append]
          simp [List.dropLast]

/-- The last piece of a split on a one-character separator is free of it. -/
theorem getLastD_splitFrom_single (n : Char) (a : JsString) :
    n ∉ (splitFrom [n] a 0).getLastD [] := by
  induction a with
  | nil => simp [splitFrom]
  | cons c t ih =>
    rw [splitFrom_single_cons]
    by_cases h : n = c
    · simp only [if_pos h]
      cases hx : splitFrom [n] t 0 with
      | nil => exact absurd hx (splitFrom_ne_nil _ _ _)
      | cons p ps => rw [hx] at ih; simpa [List.getLastD] using ih
    · simp only [if_neg h]
      cases hx : splitFrom [n] t 0 with
      | nil => exact absurd hx (splitFrom_ne_nil _ _ _)
      | cons p ps =>
        rw [hx] at ih
        cases ps with
        | nil => simpa [consHead, List.getLastD, h] using ih
        | cons q qs => simpa [consHead, List.getLastD] using ih

/-- A string free of the separator is a single piece. -/
theorem splitFrom_single_not_mem (n : Char) (a : JsString) (h : n ∉ a) :
    splitFrom [n] a 0 = [a] := by
  induction a with
  | nil => simp [splitFrom]
  | cons c t ih =>
    have hc : ¬ n = c := fun e => h (by simp [e])
    have ht : n ∉ t := fun e => h (List.mem_cons_of_mem _ e)
    rw [splitFrom_single_cons, if_neg hc, ih ht]
    rfl

/-- A separator-free piece followed by the separator is one complete piece. -/
theorem splitFrom_single_line (n : Char) (p r : JsString) (h : n ∉ p) :
    splitFrom [n] (p ++ n :: r) 0 = p :: splitFrom [n] r 0 := by
  induction p with
  | nil => simp [splitFrom_single_cons]
  | cons c t ih =>
    have hc : ¬ n = c := fun e => h (by simp [e])
    have ht : n ∉ t := fun e => h (List.mem_cons_of_mem _ e)
    rw [List.cons_append, splitFrom_single_cons, if_neg hc, ih ht]
    rfl

theorem split_newline (s : JsString) : split s newline = splitFrom ['\n'] s 0 := rfl

theorem completeLines_append (a b : JsString) :
    completeLines (a ++ b) = completeLines a ++ completeLines (remainder a ++ b) := by
  unfold completeLines remainder
  rw [split_newline, split_newline, split_newline, splitFrom_single_append]
  rw [List.dropLast_append_of_ne_nil _ (splitFrom_ne_nil _ _ _)]

theorem remainder_append (a b : JsString) :
    remainder (a ++ b) = remainder (remainder a ++ b) := by
  unfold remainder
  rw [split_newline, split_newline, split_newline, splitFrom_single_append]
  simp only [List.getLastD_eq_getLast?]
  rw [List.getLast?_append_of_ne_nil _ (splitFrom_ne_nil _ _ _)]

theorem remainder_no_newline (a : JsString) : '\n' ∉ remainder a :=
  getLastD_splitFrom_single '\n' a

theorem completeLines_of_no_newline (a : JsString) (h : '\n' ∉ a) : completeLines a = [] := by
  unfold completeLines
  rw [split_newline, splitFrom_single_not_mem _ _ h]
  rfl

theorem remainder_of_no_newline (a : JsString) (h : '\n' ∉ a) : remainder a = a := by
  unfold remainder
  rw [split_newline, splitFrom_single_not_mem _ _ h]
  rfl

/-! ## The read loop over chunks -/

theorem Flow.stopped_map {σ τ : Type} (f : σ → τ) (x : Flow σ) :
    (x.map f).stopped = x.stopped := by
  cases x <;> rfl


/-- Reading a list of chunks, starting with a newline-free buffer, handles
exactly the complete lines of the buffer joined with all the chunks; while the
handler has not returned the buffer is what follows the last newline. -/
theorem pump_chunks (app : ChatApp) (render : JsString → JsString) (parse : JsString → Parsed)
    (chunks : List JsString) :
    ∀ (caught : Bool) (b : JsString) (rs : RenderState), '\n' ∉ b →
      (pump app render parse caught ⟨b, rs⟩ (chunks.map .chunk)).map StreamState.rs
        = processLines app render parse rs (completeLines (b ++ chunks.flatten)) ∧
      ((pump app render parse caught ⟨b, rs⟩ (chunks.map .chunk)).stopped = false →
        (pump app render parse caught ⟨b, rs⟩ (chunks.map .chunk)).state.buffer
          = remainder (b ++ chunks.flatten)) := by
  induction chunks with
  | nil =>
    intro caught b rs hb
    simp [pump, Flow.map, Flow.state, completeLines_of_no_newline b hb,
      remainder_of_no_newline b hb, processLines]
  | cons v vs ih =>
    intro caught b rs hb
    have hcl : completeLines (b ++ (v :: vs).flatten) =
        completeLines (b ++ v) ++ completeLines (remainder (b ++ v) ++ vs.flatten) := by
      rw [List.flatten_cons, ← List.append_assoc, completeLines_append]
    have hrem : remainder (b ++ (v :: vs).flatten) =
        remainder (remainder (b ++ v) ++ vs.flatten) := by
      rw [List.flatten_cons, ← List.append_assoc, remainder_append]
    rw [hcl, hrem, processLines_append]
    simp only [List.map_cons, pump, processText]
    cases h : processLines app render parse rs (completeLines (b ++ v)) with
    | next rs1 =>
      simp only [Flow.map]
      exact ih false (remainder (b ++ v)) rs1 (remainder_no_newline _)
    | stop rs1 =>
      simp [Flow.map, Flow.stopped]

theorem pump_chunks_done (app : ChatApp) (render : JsString → JsString)
    (parse : JsString → Parsed) (chunks : List JsString) :
    ∀ (caught : Bool) (st : StreamState),
      (pump app render parse caught st (chunks.map .chunk ++ [.done])).map StreamState.rs
        = finish ((pump app render parse caught st (chunks.map .chunk)).map StreamState.rs) := by
  induction chunks with
  | nil =>
    intro caught st
    simp [pump, processText, Flow.map, finish]
  | cons v vs ih =>
    intro caught st
    simp only [List.map_cons, List.cons_append, pump]
    cases h : processText app render parse st (some v) with
    | next st1 => exact ih false st1
    | stop st1 => simp [Flow.map, finish]

/-- C4: whatever the cut of a text stream into chunks, the read loop started
on an empty buffer handles the complete lines of the whole stream in order up
to the first `[DONE]`, and it ends with the same render state (reasoning and
answer text, regions) and the same returned-or-not status as the loop over the
whole stream delivered as one chunk; while it has not returned, the buffers
agree too, and the agreement persists through the end of the stream. -/
theorem C4_fragmentation_invariance (app : ChatApp) (render : JsString → JsString)
    (parse : JsString → Parsed) (caught : Bool) (rs : RenderState) (chunks : List JsString) :
    (pump app render parse caught ⟨[], rs⟩ (chunks.map .chunk)).map StreamState.rs
      = processLines app render parse rs (completeLines chunks.flatten) ∧
    (pump app render parse caught ⟨[], rs⟩ (chunks.map .chunk)).map StreamState.rs
      = (pump app render parse caught ⟨[], rs⟩ [.chunk chunks.flatten]).map StreamState.rs ∧
    ((pump app render parse caught ⟨[], rs⟩ (chunks.map .chunk)).stopped = false →
      (pump app render parse caught ⟨[], rs⟩ (chunks.map .chunk)).state.buffer
        = (pump app render parse caught ⟨[], rs⟩ [.chunk chunks.flatten]).state.buffer) ∧
    (pump app render parse caught ⟨[], rs⟩ (chunks.map .chunk ++ [.done])).map StreamState.rs
      = (pump app render parse caught ⟨[], rs⟩ [.chunk chunks.flatten, .done]).map
          StreamState.rs := by
  have hnil : '\n' ∉ ([] : JsString) := by simp
  obtain ⟨h1, h2⟩ := pump_chunks app render parse chunks caught [] rs hnil
  obtain ⟨k1, k2⟩ := pump_chunks app render parse [chunks.flatten] caught [] rs hnil
  have hw : ([chunks.flatten] : List JsString).flatten = chunks.flatten := by simp
  rw [hw] at k1 k2
  simp only [List.nil_append] at h1 h2 k1 k2
  have hone : ([chunks.flatten].map ReadResult.chunk) = [.chunk chunks.flatten] := rfl
  rw [hone] at k1 k2
  have h12 := h1.trans k1.symm
  refine ⟨h1, h12, ?_, ?_⟩
  · intro hs
    have hs2 : (pump app render parse caught ⟨[], rs⟩ [.chunk chunks.flatten]).stopped = false := by
      have hst := congrArg Flow.stopped h12
      rw [Flow.stopped_map, Flow.stopped_map] at hst
      rw [← hst]; exact hs
    rw [h2 hs, k2 hs2]
  · have d1 := pump_chunks_done app render parse chunks caught ⟨[], rs⟩
    have d2 := pump_chunks_done app render parse [chunks.flatten] caught ⟨[], rs⟩
    rw [d1, h12]
    exact d2.symm

/-! ## A line that carries no delta -/

/-- The complete lines of a stream in which the line `l` stands between the
texts `A` (empty or ending in a newline) and `B`. -/
theorem completeLines_insert (A l B : JsString) (hA : remainder A = []) (hl : '\n' ∉ l) :
    completeLines (A ++ l ++ newline ++ B) = completeLines A ++ l :: completeLines B ∧
    completeLines (A ++ B) = completeLines A ++ completeLines B := by
  constructor
  · rw [List.append_assoc, List.append_assoc, completeLines_append, hA, List.nil_append]
    congr 1
    unfold completeLines
    rw [split_newline, split_newline]
    show (splitFrom ['\n'] (l ++ '\n' :: B) 0).dropLast = l :: (splitFrom ['\n'] B 0).dropLast
    rw [splitFrom_single_line _ _ _ hl]
    cases hx : splitFrom ['\n'] B 0 with
    | nil => exact absurd hx (splitFrom_ne_nil _ _ _)
    | cons p ps => rfl
  · rw [completeLines_append, hA, List.nil_append]

/-- The complete lines of a stream of three newline-terminated lines. -/
theorem completeLines_three (l1 l2 l3 : JsString) (h1 : '\n' ∉ l1) (h2 : '\n' ∉ l2)
    (h3 : '\n' ∉ l3) :
    completeLines (l1 ++ newline ++ l2 ++ newline ++ l3 ++ newline) = [l1, l2, l3] := by
  unfold completeLines
  rw [split_newline]
  show (splitFrom ['\n'] (((((l1 ++ ['\n']) ++ l2) ++ ['\n']) ++ l3) ++ ['\n']) 0).dropLast = _
  simp only [List.append_assoc, List.singleton_append, List.cons_append, List.nil_append]
  rw [splitFrom_single_line _ _ _ h1, splitFrom_single_line _ _ _ h2,
    splitFrom_single_line _ _ _ h3]
  rfl

/-- The outcome of three lines that each go on: the state after the third. -/
theorem processLines_three (app : ChatApp) (render : JsString → JsString)
    (parse : JsString → Parsed) (s0 s1 s2 s3 : RenderState) (l1 l2 l3 : JsString)
    (h1 : processLine app render parse s0 l1 = .next s1)
    (h2 : processLine app render parse s1 l2 = .next s2)
    (h3 : processLine app render parse s2 l3 = .next s3) :
    processLines app render parse s0 [l1, l2, l3] = .next s3 := by
  rw [processLines_cons_next _ _ _ _ _ _ _ h1, processLines_cons_next _ _ _ _ _ _ _ h2,
    processLines_cons_next _ _ _ _ _ _ _ h3, processLines_nil]

/-- C5 as stated fails for a content that is truthy and not a string.  With
the markers `<think>` and `</think>` and the classifier inside a think block
holding `abc`, the line whose content is the array `["</think>"]` switches
`inThinkBlock` off (the `split` that follows throws), so that the next line's
`def` goes to the answer text instead of the reasoning text.  With the
constructor's markers, the line whose content is the number `5` appends `5`
to the answer text. -/
theorem C5_nonstring_content_counterexample :
    (feed thinkTags id RenderState.init ["<think>".toList, "abc".toList]).inThinkBlock = true ∧
    processLine thinkTags id sampleParse
        (feed thinkTags id RenderState.init ["<think>".toList, "abc".toList])
        (contentLine "[\"</think>\"]")
      = .next { feed thinkTags id RenderState.init ["<think>".toList, "abc".toList] with
                inThinkBlock := false } ∧
    (processLines thinkTags id sampleParse
        (feed thinkTags id RenderState.init ["<think>".toList, "abc".toList])
        [contentLine "[\"</think>\"]", dataLine "def"]).state.accumulatedContent
      = "def".toList ∧
    (processLines thinkTags id sampleParse
        (feed thinkTags id RenderState.init ["<think>".toList, "abc".toList])
        [dataLine "def"]).state.accumulatedContent = [] ∧
    (processLines thinkTags id sampleParse
        (feed thinkTags id RenderState.init ["<think>".toList, "abc".toList])
        [dataLine "def"]).state.thinkContent = "abcdef".toList ∧
    (processLine ChatApp.new id sampleParse RenderState.init
        (contentLine "5")).state.accumulatedContent = "5".toList := by
  decide

/-- C5 amended: a data line, other than `[DONE]`, on whose payload
`JSON.parse` or the access to `choices[0]` throws, or whose content is absent
or falsy (`undefined`, `null`, `false`, `0`, `''`), leaves the render state
as it is and lets the loop go on; the lines around it are handled as if it
were absent, whatever the cut of the stream into chunks; and with no start
marker, a stream made of a good line, such a line and a good line, cut into
chunks in any way, gives as answer text the two good contents joined. -/
theorem C5_skipped_line_amended (app : ChatApp) (render : JsString → JsString)
    (parse : JsString → Parsed) (bad : JsString)
    (hp : dataPrefix.isPrefixOf bad = true) (hd : bad.drop 6 ≠ doneToken)
    (hnl : '\n' ∉ bad)
    (hbad : parse (bad.drop 6) = .thrown ∨
      ∃ v : JsValue, parse (bad.drop 6) = .value v ∧ v.truthy = false) :
    (∀ st : RenderState, processLine app render parse st bad = .next st) ∧
    (∀ (st : RenderState) (pre post : List JsString),
      processLines app render parse st (pre ++ bad :: post)
        = processLines app render parse st (pre ++ post)) ∧
    (∀ (caught : Bool) (rs : RenderState) (withBad without : List JsString) (A B : JsString),
      remainder A = [] →
      withBad.flatten = A ++ bad ++ newline ++ B → without.flatten = A ++ B →
      (pump app render parse caught ⟨[], rs⟩ (withBad.map .chunk)).map StreamState.rs
        = (pump app render parse caught ⟨[], rs⟩ (without.map .chunk)).map StreamState.rs) ∧
    (app.thinkStartMarker = [] →
      ∀ (caught : Bool) (chunks : List JsString) (g1 g2 c1 c2 : JsString),
      dataPrefix.isPrefixOf g1 = true → g1.drop 6 ≠ doneToken → '\n' ∉ g1 →
      parse (g1.drop 6) = .value (.string c1) →
      dataPrefix.isPrefixOf g2 = true → g2.drop 6 ≠ doneToken → '\n' ∉ g2 →
      parse (g2.drop 6) = .value (.string c2) →
      chunks.flatten = g1 ++ newline ++ bad ++ newline ++ g2 ++ newline →
      (pump app render parse caught StreamState.init (chunks.map .chunk)).stopped = false ∧
      (pump app render parse caught StreamState.init
        (chunks.map .chunk)).state.rs.accumulatedContent = c1 ++ c2) := by
  have hline : ∀ st : RenderState, processLine app render parse st bad = .next st := by
    intro st
    rcases hbad with h | ⟨v, h, hv⟩
    · exact processLine_thrown app render parse st bad hp hd h
    · rw [processLine_value app render parse st bad v hp hd h, processValue_falsy _ _ _ _ hv]
  have hlines : ∀ (st : RenderState) (pre post : List JsString),
      processLines app render parse st (pre ++ bad :: post)
        = processLines app render parse st (pre ++ post) := by
    intro st pre post
    rw [processLines_append, processLines_append]
    cases processLines app render parse st pre with
    | next st1 => simp only []; rw [processLines_cons_next _ _ _ _ _ _ _ (hline st1)]
    | stop st1 => rfl
  have hnil : '\n' ∉ ([] : JsString) := by simp
  refine ⟨hline, hlines, ?_, ?_⟩
  · intro caught rs withBad without A B hA hw hwo
    obtain ⟨e1, e2⟩ := completeLines_insert A bad B hA hnl
    rw [(pump_chunks app render parse withBad caught [] rs hnil).1,
      (pump_chunks app render parse without caught [] rs hnil).1,
      List.nil_append, List.nil_append, hw, hwo, e1, e2]
    exact hlines rs _ _
  · intro hS caught chunks g1 g2 c1 c2 p1 d1 n1 v1 p2 d2 n2 v2 hflat
    have s1 := processLine_content app render parse RenderState.init g1 c1 p1 d1 v1
    have s3 := processLine_content app render parse
      (processContent app render RenderState.init c1) g2 c2 p2 d2 v2
    have hrun := (pump_chunks app render parse chunks caught [] RenderState.init hnil).1
    rw [List.nil_append, hflat, completeLines_three g1 bad g2 n1 hnl n2,
      processLines_three app render parse _ _ _ _ g1 bad g2 s1 (hline _) s3] at hrun
    have hinit : (⟨[], RenderState.init⟩ : StreamState) = StreamState.init := rfl
    rw [hinit] at hrun
    cases hx : pump app render parse caught StreamState.init (chunks.map .chunk) with
    | stop st1 => rw [hx] at hrun; cases hrun
    | next st1 =>
      rw [hx] at hrun
      have hrs : st1.rs = processContent app render (processContent app render
          RenderState.init c1) c2 := by
        simpa [Flow.map] using hrun
      refine ⟨rfl, ?_⟩
      show st1.rs.accumulatedContent = c1 ++ c2
      rw [hrs, (processContent_noStart app render _ c2 hS).1,
        (processContent_noStart app render _ c1 hS).1]
      simp [RenderState.init]

/-- C5 amended, with the constructor's markers: the stream of the lines
carrying `Hello`, a payload that is not JSON, and ` world`, cut in the middle
of the second line, gives the answer text `Hello world`. -/
theorem C5_skipped_line_amended_witness :
    (pump ChatApp.new id sampleParse true StreamState.init
      ([dataLine "Hello" ++ newline ++ "data: \x7bo".toList,
        "ops".toList ++ newline ++ dataLine " world" ++ newline].map .chunk)).stopped = false ∧
    (pump ChatApp.new id sampleParse true StreamState.init
      ([dataLine "Hello" ++ newline ++ "data: \x7bo".toList,
        "ops".toList ++ newline ++ dataLine " world" ++ newline].map
          .chunk)).state.rs.accumulatedContent
      = "Hello".toList ++ " world".toList :=
  (C5_skipped_line_amended ChatApp.new id sampleParse "data: \x7boops".toList (by decide)
    (by decide) (by decide) (Or.inl rfl)).2.2.2 rfl true
    [dataLine "Hello" ++ newline ++ "data: \x7bo".toList,
      "ops".toList ++ newline ++ dataLine " world" ++ newline]
    (dataLine "Hello") (dataLine " world") "Hello".toList " world".toList
    (by decide) (by decide) (by decide) rfl (by decide) (by decide) (by decide) rfl (by decide)

/-! ## Cancellation while reading -/

/-- A read rejected with `AbortError` ends the chain with the state the
earlier reads had produced, whatever would have followed. -/
theorem pump_abort (app : ChatApp) (render : JsString → JsString) (parse : JsString → Parsed)
    (reads later : List ReadResult) :
    ∀ (caught : Bool) (st : StreamState),
      (pump app render parse caught st (reads ++ .rejected .abortError :: later)).state
        = (pump app render parse caught st reads).state ∧
      (pump app render parse caught st (reads ++ .rejected .abortError :: later)).stopped
        = true := by
  induction reads with
  | nil =>
    intro caught st
    cases caught <;> simp [pump, onRejected, Flow.state, Flow.stopped]
  | cons r rest ih =>
    intro caught st
    cases r with
    | chunk v =>
      simp only [List.cons_append, pump]
      cases h : processText app render parse st (some v) with
      | next st1 => exact ih false st1
      | stop st1 => simp [Flow.state, Flow.stopped]
    | done =>
      simp [pump, processText, Flow.state, Flow.stopped]
    | rejected n =>
      simp [pump, Flow.state, Flow.stopped]

/-- C6, the code at the failing input.  The `fetch` succeeds, a chunk
carrying `Hi` is rendered, and the next read is rejected with `AbortError`:
the reply is still the placeholder whose content shows `Hi`, not the stop
notice, which `handleSubmit` does write when the `fetch` itself is rejected
with `AbortError`.  With the markers `<think>` and `</think>` the reply is
moreover left collapsed, while the same reads ended by the end of the stream
leave it expanded. -/
theorem C6_abort_mid_stream_no_stop_notice :
    handleSubmit ChatApp.new id sampleParse
        (.response true [.chunk (dataLine "Hi" ++ newline), .rejected .abortError])
      = .placeholder { collapsed := false, html := "Hi".toList, children := [], nextId := 0 } ∧
    handleSubmit ChatApp.new id sampleParse
        (.response true [.chunk (dataLine "Hi" ++ newline), .rejected .abortError])
      ≠ .markup stopNotice ∧
    handleSubmit ChatApp.new id sampleParse (.rejected .abortError) = .markup stopNotice ∧
    handleSubmit thinkTags id sampleParse
        (.response true [.chunk (dataLine "Hi" ++ newline), .rejected .abortError])
      = .placeholder { collapsed := true, html := [],
                       children := [{ id := 0, cls := .thinkBlock, html := "Hi".toList }],
                       nextId := 1 } ∧
    handleSubmit thinkTags id sampleParse
        (.response true [.chunk (dataLine "Hi" ++ newline), .done])
      = .placeholder { collapsed := false, html := [],
                       children := [{ id := 0, cls := .thinkBlock, html := "Hi".toList }],
                       nextId := 1 } := by
  decide

/-- Whatever was read before it, a read rejected with `AbortError` makes
`handleSubmit` leave the reply as the placeholder in the state the earlier
reads produced, and ends the chain of reads. -/
theorem handleSubmit_abort_while_reading (app : ChatApp) (render : JsString → JsString)
    (parse : JsString → Parsed) (reads later : List ReadResult) :
    handleSubmit app render parse (.response true (reads ++ .rejected .abortError :: later))
      = .placeholder (handleStreamResponse app render parse reads).state.rs.dom ∧
    (handleStreamResponse app render parse (reads ++ .rejected .abortError :: later)).stopped
      = true := by
  obtain ⟨h1, h2⟩ := pump_abort app render parse reads later true StreamState.init
  refine ⟨?_, h2⟩
  show BotMessage.placeholder _ = BotMessage.placeholder _
  rw [show handleStreamResponse app render parse (reads ++ .rejected .abortError :: later)
    = pump app render parse true StreamState.init (reads ++ .rejected .abortError :: later)
    from rfl, h1]
  rfl

end ChatClient
